import Mathlib

/- Verification of the preconfirmation coordination engine of the mantle
   op-geth execution client.  The Go sources are shallowly embedded: pure
   functions become Lean functions, in-place mutation becomes explicit
   state passing, machine integers become Nat/Int with explicit reductions
   modulo 2^64 where Go overflow semantics matter, and the external
   execution interface (core.ApplyTransaction) becomes an oracle
   parameter. -/

set_option autoImplicit false

namespace MantleGeth

/-- Transaction hashes (common.Hash), abstracted to naturals. -/
abbrev Hash := Nat

/-- Account addresses (common.Address), abstracted to naturals. -/
abbrev Address := Nat

/-- Status of a preconfirmation request, from core/events.go
(PreconfStatusSuccess / Failed / Timeout / Waiting). -/
inductive PreconfStatus where
  | waiting
  | success
  | failed
  | timeout
deriving DecidableEq

/-- The guarded status transition NewPreconfTxRequest.SetStatus from
core/events.go: under the request mutex, the stored status is overwritten
with `status` only if it currently equals `statusBefore`; the stored status
after the conditional write is returned.  The first component of the result
is the stored status after the call, the second the returned value. -/
def SetStatus (cur statusBefore status : PreconfStatus) : PreconfStatus × PreconfStatus :=
  let stored := if cur = statusBefore then status else cur
  (stored, stored)

/-- A sequence of SetStatus calls applied to a stored status, each call
given as a (statusBefore, status) pair. -/
def setStatusRun (s : PreconfStatus) (calls : List (PreconfStatus × PreconfStatus)) : PreconfStatus :=
  calls.foldl (fun st c => (SetStatus st c.1 c.2).1) s

/-- An L1 block reference from the optimism sync status
(preconf.L1BlockRef): block number and timestamp, both uint64. -/
structure L1BlockRef where
  number : Nat
  time : Nat
deriving DecidableEq

/-- A bare block identifier (preconf.BlockID). -/
structure BlockID where
  number : Nat
deriving DecidableEq

/-- An L2 block reference from the optimism sync status
(preconf.L2BlockRef), carrying its L1-origin block identifier. -/
structure L2BlockRef where
  number : Nat
  time : Nat
  l1Origin : BlockID
deriving DecidableEq

/-- The rollup-derivation status polled from the op-node
(preconf.OptimismSyncStatus). -/
structure OptimismSyncStatus where
  currentL1 : L1BlockRef
  headL1 : L1BlockRef
  unsafeL2 : L2BlockRef
  engineSyncTarget : L2BlockRef
deriving DecidableEq

/-- preconfChecker.isSyncStatusOk from miner/preconf_checker.go: the newly
polled status is acceptable when all five tracked block numbers are at
least the corresponding numbers of the last accepted status. -/
def isSyncStatusOk (old newStatus : OptimismSyncStatus) : Bool :=
  decide (old.currentL1.number ≤ newStatus.currentL1.number) &&
  decide (old.headL1.number ≤ newStatus.headL1.number) &&
  decide (old.unsafeL2.number ≤ newStatus.unsafeL2.number) &&
  decide (old.unsafeL2.l1Origin.number ≤ newStatus.unsafeL2.l1Origin.number) &&
  decide (old.engineSyncTarget.number ≤ newStatus.engineSyncTarget.number)

/-- The sync-status gate fields of the preconfChecker: the last accepted
status (none before the first poll) and the ok flag. -/
structure SyncGateState where
  optimismSyncStatus : Option OptimismSyncStatus
  optimismSyncStatusOk : Bool
deriving DecidableEq

/-- preconfChecker.UpdateOptimismSyncStatus from miner/preconf_checker.go,
restricted to its state commit: the first poll is always accepted; a later
poll is accepted exactly when isSyncStatusOk holds, and rejected polls keep
the old status and clear the ok flag.  The second component is the
(l1Origin, headL1) pair for which the deposit-transaction window would be
refetched (external I/O, performed between the two lock sections), if any. -/
def UpdateOptimismSyncStatus (c : SyncGateState) (newStatus : OptimismSyncStatus) :
    SyncGateState × Option (Nat × Nat) :=
  match c.optimismSyncStatus with
  | none =>
      (⟨some newStatus, true⟩,
       some (newStatus.unsafeL2.l1Origin.number, newStatus.headL1.number))
  | some old =>
      if isSyncStatusOk old newStatus then
        if old.unsafeL2.l1Origin.number ≠ newStatus.unsafeL2.l1Origin.number ∨
            old.headL1.number ≠ newStatus.headL1.number then
          (⟨some newStatus, true⟩,
           some (newStatus.unsafeL2.l1Origin.number, newStatus.headL1.number))
        else
          (⟨some newStatus, true⟩, none)
      else
        (⟨some old, false⟩, none)

/-- The preconfirmation admission policy configuration
(preconf.TxPoolConfig): sender allow-list, recipient allow-list and the
all-transactions flag. -/
structure TxPoolConfig where
  fromPreconfs : List Address
  toPreconfs : List Address
  allPreconfs : Bool
deriving DecidableEq

/-- Linear scan of an address list, mirroring the range loops of
TxPoolConfig.IsPreconfTx. -/
def addrIn (xs : List Address) (a : Address) : Bool :=
  match xs with
  | [] => false
  | x :: rest => if x = a then true else addrIn rest a

/-- The nested allow-list loops of TxPoolConfig.IsPreconfTx: on the first
sender entry equal to `f`, the result is whether some recipient entry
equals `t`; if no sender entry matches, the result is false. -/
def fromToMatch (froms tos : List Address) (f t : Address) : Bool :=
  match froms with
  | [] => false
  | pf :: rest => if pf = f then addrIn tos t else fromToMatch rest tos f t

/-- The earlier revision of TxPoolConfig.IsPreconfTx in
preconf/tx_pool_config.go: a nil sender or recipient is rejected before
the AllPreconfs flag is consulted. -/
def IsPreconfTxEarly (c : TxPoolConfig) (fromAddr toAddr : Option Address) : Bool :=
  match fromAddr, toAddr with
  | some f, some t =>
      if c.allPreconfs then true
      else fromToMatch c.fromPreconfs c.toPreconfs f t
  | _, _ => false

/-- The later revision of TxPoolConfig.IsPreconfTx in
preconf/tx_pool_config.go: the AllPreconfs flag is consulted first, so it
admits even a nil sender or recipient. -/
def IsPreconfTx (c : TxPoolConfig) (fromAddr toAddr : Option Address) : Bool :=
  if c.allPreconfs then true
  else
    match fromAddr, toAddr with
    | some f, some t => fromToMatch c.fromPreconfs c.toPreconfs f t
    | _, _ => false

lemma addrIn_eq_true_iff (xs : List Address) (a : Address) :
    addrIn xs a = true ↔ a ∈ xs := by
  induction xs with
  | nil => simp [addrIn]
  | cons x rest ih =>
      by_cases hx : x = a
      · simp [addrIn, hx]
      · simp only [addrIn, if_neg hx, ih, List.mem_cons]
        constructor
        · exact Or.inr
        · rintro (h | h)
          · exact absurd h.symm hx
          · exact h

lemma fromToMatch_eq_true_iff (froms tos : List Address) (f t : Address) :
    fromToMatch froms tos f t = true ↔ f ∈ froms ∧ t ∈ tos := by
  induction froms with
  | nil => simp [fromToMatch]
  | cons pf rest ih =>
      by_cases hx : pf = f
      · simp [fromToMatch, hx, addrIn_eq_true_iff]
      · simp only [fromToMatch, if_neg hx, ih, List.mem_cons]
        constructor
        · rintro ⟨hf, ht⟩
          exact ⟨Or.inr hf, ht⟩
        · rintro ⟨hf, ht⟩
          refine ⟨?_, ht⟩
          rcases hf with hf | hf
          · exact absurd hf.symm hx
          · exact hf

/-- The transaction fields the preconfirmation engine inspects
(types.Transaction): hash, nonce, gas limit, type tag and replay
protection. -/
structure Tx where
  hash : Hash
  nonce : Nat
  gas : Nat
  txType : Nat
  prot : Bool
deriving DecidableEq

/-- An entry of the preconfirmation registry (preconf.TxEntry in
params/mantle.go): a transaction together with its sender address. -/
structure TxEntry where
  tx : Tx
  sender : Address
deriving DecidableEq

/-- The ordered preconfirmation registry preconf.FIFOTxSet: the hash-keyed
lookup map (modelled as an association list) and the FIFO queue. -/
structure FIFOTxSet where
  txMap : List (Hash × TxEntry)
  txQueue : List TxEntry
deriving DecidableEq

/-- Deletion of a key from the lookup map (the Go `delete` builtin; map
keys are unique, so removing the first occurrence suffices). -/
def eraseKey (m : List (Hash × TxEntry)) (h : Hash) : List (Hash × TxEntry) :=
  match m with
  | [] => []
  | p :: rest => if p.1 = h then rest else p :: eraseKey rest h

/-- The loop body of FIFOTxSet.Forward (params/mantle.go): an entry of
`addr` with nonce below `nonce` is dropped and deleted from the map, any
other entry is appended back to the compacted queue. -/
def forwardStep (addr : Address) (nonce : Nat) (acc : FIFOTxSet) (entry : TxEntry) : FIFOTxSet :=
  if entry.sender = addr ∧ entry.tx.nonce < nonce then
    { acc with txMap := eraseKey acc.txMap entry.tx.hash }
  else
    { acc with txQueue := acc.txQueue ++ [entry] }

/-- FIFOTxSet.Forward from params/mantle.go: one in-place compaction pass
over the queue, dropping every entry of `addr` with nonce strictly below
`nonce` (also deleting it from the map) and keeping all other entries in
their original order. -/
def Forward (s : FIFOTxSet) (addr : Address) (nonce : Nat) : FIFOTxSet :=
  s.txQueue.foldl (forwardStep addr nonce) { txMap := s.txMap, txQueue := [] }

lemma forward_foldl_queue (addr : Address) (nonce : Nat) :
    ∀ (l : List TxEntry) (m : List (Hash × TxEntry)) (q0 : List TxEntry),
      (l.foldl (forwardStep addr nonce) { txMap := m, txQueue := q0 }).txQueue
        = q0 ++ l.filter
            (fun entry => !(decide (entry.sender = addr) && decide (entry.tx.nonce < nonce))) := by
  intro l
  induction l with
  | nil => intro m q0; simp
  | cons e rest ih =>
      intro m q0
      by_cases he : e.sender = addr ∧ e.tx.nonce < nonce
      · simp only [List.foldl_cons, forwardStep, if_pos he]
        rw [ih]
        have hcond : ¬(¬e.sender = addr ∨ nonce ≤ e.tx.nonce) := by
          push_neg
          exact ⟨he.1, he.2⟩
        simp [List.filter_cons, hcond]
      · simp only [List.foldl_cons, forwardStep, if_neg he]
        rw [ih]
        have hcond : ¬e.sender = addr ∨ nonce ≤ e.tx.nonce := by
          by_cases hA : e.sender = addr
          · exact Or.inr (Nat.le_of_not_lt fun hB => he ⟨hA, hB⟩)
          · exact Or.inl hA
        simp [List.filter_cons, hcond]

/-- A transaction receipt as far as the preconfirmation engine inspects it
(types.Receipt): transaction hash, status code and gas used. -/
structure Receipt where
  txHash : Hash
  status : Nat
  gasUsed : Nat
deriving DecidableEq

/-- Errors distinguished by the execution interface: core.ErrGasLimitReached,
core.ErrNonceTooLow, and all remaining failures collapsed into one case. -/
inductive TxErr where
  | gasLimitReached
  | nonceTooLow
  | other
deriving DecidableEq

/-- Result of applying one transaction through the execution interface. -/
inductive ApplyRes where
  | ok (receipt : Receipt)
  | fail (e : TxErr)
deriving DecidableEq

/-- The in-progress block-building context miner.environment, restricted
to the fields the preconfirmation engine reads or writes: header number
(a big.Int, hence an unbounded Nat), header gas limit and cumulative gas
used, the remaining gas pool, an abstract execution-state value, and the
applied transaction and receipt lists with their count. -/
structure Env where
  headerNumber : Nat
  headerGasLimit : Nat
  headerGasUsed : Nat
  gasPool : Nat
  state : Nat
  txs : List Tx
  receipts : List Receipt
  tcount : Nat
deriving DecidableEq

/-- What one call of core.ApplyTransaction (the external execution
interface) leaves behind: the execution state, gas pool and cumulative gas
used as mutated through the environment pointers, plus a receipt or an
error. -/
structure ApplyOutcome where
  state : Nat
  gasPool : Nat
  gasUsed : Nat
  result : ApplyRes

/-- The external execution interface, abstracted as an oracle over the
environment and the transaction. -/
abbrev ApplyOracle := Env → Tx → ApplyOutcome

/-- preconfChecker.applyTx from miner/preconf_checker.go: set the tx
context, snapshot the state and record the gas pool, run
core.ApplyTransaction; on error revert the state to the snapshot, restore
the gas pool and return the error; on success keep the mutated state,
append the transaction and its receipt and bump the transaction count. -/
def applyTx (oracle : ApplyOracle) (env : Env) (tx : Tx) : Env × ApplyRes :=
  let snap := env.state
  let gp := env.gasPool
  let o := oracle env tx
  match o.result with
  | ApplyRes.fail e =>
      ({ env with state := snap, gasPool := gp }, ApplyRes.fail e)
  | ApplyRes.ok receipt =>
      ({ env with
          state := o.state, gasPool := o.gasPool, headerGasUsed := o.gasUsed,
          txs := env.txs ++ [tx], receipts := env.receipts ++ [receipt],
          tcount := env.tcount + 1 }, ApplyRes.ok receipt)

/-- preconfChecker.applyTxWithResetEnv from miner/preconf_checker.go: on a
block-gas-limit-reached failure the header number is advanced by one, the
gas pool is reset to the header gas limit and the application is retried
once; any other error, or whatever the single retry produces, is returned
to the caller. -/
def applyTxWithResetEnv (oracle : ApplyOracle) (env : Env) (tx : Tx) : Env × ApplyRes :=
  match applyTx oracle env tx with
  | (env1, ApplyRes.fail TxErr.gasLimitReached) =>
      applyTx oracle
        { env1 with headerNumber := env1.headerNumber + 1, gasPool := env1.headerGasLimit } tx
  | (env1, ApplyRes.fail e) => (env1, ApplyRes.fail e)
  | (env1, ApplyRes.ok receipt) => (env1, ApplyRes.ok receipt)

/-- Reinterpretation of a uint64 value as a Go int64 (the int64 cast). -/
def toI64 (n : Nat) : Int :=
  if n % 2 ^ 64 < 2 ^ 63 then ((n % 2 ^ 64 : Nat) : Int) else ((n % 2 ^ 64 : Nat) : Int) - 2 ^ 64

/-- Wrapping uint64 subtraction (Go a - b on uint64 values). -/
def wsub64 (a b : Nat) : Nat := (((a : Int) - (b : Int)) % 2 ^ 64).toNat

/-- The preconf.MinerConfig fields read by precheck: the tolerance block
count (int64) and the preconfirmation buffer block count (uint64). -/
structure MinerConfig where
  toleranceBlock : Int
  preconfBufferBlock : Nat
deriving DecidableEq

/-- MinerConfig.MantleToleranceDuration, in seconds. -/
def MinerConfig.mantleToleranceDuration (c : MinerConfig) : Int :=
  c.toleranceBlock * 2

/-- MinerConfig.EthToleranceDuration, in seconds. -/
def MinerConfig.ethToleranceDuration (c : MinerConfig) : Int :=
  (c.toleranceBlock + 3) * 12

/-- MinerConfig.EthToleranceBlock, the uint64 cast of toleranceBlock + 3. -/
def MinerConfig.ethToleranceBlock (c : MinerConfig) : Nat :=
  ((c.toleranceBlock + 3) % 2 ^ 64).toNat

/-- The preconfChecker fields read by precheck, with times in seconds. -/
structure CheckerState where
  env : Option Env
  envUpdatedAt : Int
  optimismSyncStatus : Option OptimismSyncStatus
  optimismSyncStatusOk : Bool
  minerConfig : MinerConfig
deriving DecidableEq

/-- The distinct gate errors returned by precheck (the error values
declared at the top of miner/preconf_checker.go). -/
inductive PrecheckErr where
  | envNil
  | optimismSyncNil
  | optimismSyncNotOk
  | envTooOld
  | currentL1BlockTooOld
  | headL1BlockTooOld
  | currentL1NumberAndHeadL1NumberDistanceTooLarge
  | envBlockNumberLessThanEngineSyncTargetOrUnsafeL2
  | envBlockNumberAndEngineSyncTargetDistanceTooLarge
deriving DecidableEq

/-- preconfChecker.precheck from miner/preconf_checker.go, with the wall
clock passed as `now` (seconds): the gate conditions are evaluated in
source order and the first failing one yields its error.  Note the gate
named after the current-L1/head-L1 distance actually compares
headL1.number against unsafeL2.l1Origin.number (uint64 subtraction). -/
def precheck (c : CheckerState) (now : Int) : Option PrecheckErr :=
  match c.env with
  | none => some PrecheckErr.envNil
  | some env =>
    match c.optimismSyncStatus with
    | none => some PrecheckErr.optimismSyncNil
    | some status =>
      if !c.optimismSyncStatusOk then some PrecheckErr.optimismSyncNotOk
      else if now - c.envUpdatedAt > c.minerConfig.mantleToleranceDuration then
        some PrecheckErr.envTooOld
      else if now - toI64 status.currentL1.time > c.minerConfig.ethToleranceDuration then
        some PrecheckErr.currentL1BlockTooOld
      else if now - toI64 status.headL1.time > c.minerConfig.ethToleranceDuration then
        some PrecheckErr.headL1BlockTooOld
      else if wsub64 status.headL1.number status.unsafeL2.l1Origin.number
          > c.minerConfig.ethToleranceBlock then
        some PrecheckErr.currentL1NumberAndHeadL1NumberDistanceTooLarge
      else if env.headerNumber % 2 ^ 64 < status.engineSyncTarget.number ∨
          env.headerNumber % 2 ^ 64 < status.unsafeL2.number then
        some PrecheckErr.envBlockNumberLessThanEngineSyncTargetOrUnsafeL2
      else if wsub64 (env.headerNumber % 2 ^ 64) status.engineSyncTarget.number
            > c.minerConfig.preconfBufferBlock ∨
          wsub64 (env.headerNumber % 2 ^ 64) status.unsafeL2.number
            > c.minerConfig.preconfBufferBlock then
        some PrecheckErr.envBlockNumberAndEngineSyncTargetDistanceTooLarge
      else none

/-- params.TxGas, the intrinsic gas floor of any transaction. -/
def TxGas : Nat := 21000

/-- Miner.applyTransaction from miner/worker.go: snapshot, run
core.ApplyTransaction, and on failure revert the state and restore the gas
pool. -/
def applyTransaction (oracle : ApplyOracle) (env : Env) (tx : Tx) : Env × ApplyRes :=
  let snap := env.state
  let gp := env.gasPool
  let o := oracle env tx
  match o.result with
  | ApplyRes.fail e => ({ env with state := snap, gasPool := gp }, ApplyRes.fail e)
  | ApplyRes.ok receipt =>
      ({ env with state := o.state, gasPool := o.gasPool, headerGasUsed := o.gasUsed },
       ApplyRes.ok receipt)

/-- Miner.commitTransaction from miner/worker.go for plain (non-blob)
transactions — the preconfirmation pending filter selects plain
transactions only: apply, and on success append the transaction and its
receipt and bump the count. -/
def commitTransaction (oracle : ApplyOracle) (env : Env) (tx : Tx) : Env × Option TxErr :=
  match applyTransaction oracle env tx with
  | (env1, ApplyRes.fail e) => (env1, some e)
  | (env1, ApplyRes.ok receipt) =>
      ({ env1 with
          txs := env1.txs ++ [tx], receipts := env1.receipts ++ [receipt],
          tcount := env1.tcount + 1 }, none)

/-- The FIFO loop of Miner.commitFIFOTransactions (miner/worker.go): walk
the drained transactions in order; break out, remembering the remaining
suffix, when the gas pool drops below the intrinsic minimum or a
transaction fails with block-gas-limit-reached; skip replay-protected
transactions before EIP-155, and transactions failing with any other
error, without breaking. -/
def fifoLoop (oracle : ApplyOracle) (eip155 : Bool) (env : Env) (txs : List Tx) :
    Option (List Tx) × Env :=
  match txs with
  | [] => (none, env)
  | tx :: rest =>
    if env.gasPool < TxGas then (some (tx :: rest), env)
    else if tx.prot && !eip155 then fifoLoop oracle eip155 env rest
    else
      match commitTransaction oracle env tx with
      | (env1, some TxErr.gasLimitReached) => (some (tx :: rest), env1)
      | (env1, some TxErr.nonceTooLow) => fifoLoop oracle eip155 env1 rest
      | (env1, some TxErr.other) => fifoLoop oracle eip155 env1 rest
      | (env1, none) => fifoLoop oracle eip155 env1 rest

/-- Interruption of the build loop (the signalToErr errors collapsed). -/
inductive BuildErr where
  | interrupted
deriving DecidableEq

/-- Miner.commitFIFOTransactions from miner/worker.go: a fired interrupt
signal aborts the loop on its first iteration; otherwise the FIFO loop
runs and the unsealed suffix (empty when no gas-limit break occurred) is
returned together with the updated environment. -/
def commitFIFOTransactions (oracle : ApplyOracle) (eip155 : Bool) (interruptFired : Bool)
    (env : Env) (txs : List Tx) : Except BuildErr (List Tx × Env) :=
  if interruptFired && !txs.isEmpty then Except.error BuildErr.interrupted
  else
    let r := fifoLoop oracle eip155 env txs
    Except.ok (r.1.getD [], r.2)

/-- Miner.fillTransactions from miner/worker.go, restricted to its
preconfirmation path: commit the drained preconfirmation transactions
first; the unsealed suffix is handed to the pause channel (returned here
as the first component); if it is non-empty the function returns at once,
skipping ordinary transaction filling for the cycle, otherwise the
ordinary filling (an abstract stage covering the priority and normal
commitTransactions calls) runs on the resulting environment. -/
def fillTransactions (oracle : ApplyOracle) (eip155 : Bool) (interruptFired : Bool)
    (ordinaryFill : Env → Except BuildErr Env) (env : Env) (preconfTxs : List Tx) :
    Except BuildErr (List Tx × Env) :=
  if 0 < preconfTxs.length then
    match commitFIFOTransactions oracle eip155 interruptFired env preconfTxs with
    | Except.error e => Except.error e
    | Except.ok (unsealed, env1) =>
      if 0 < unsealed.length then Except.ok (unsealed, env1)
      else
        match ordinaryFill env1 with
        | Except.error e => Except.error e
        | Except.ok env2 => Except.ok (unsealed, env2)
  else
    match ordinaryFill env with
    | Except.error e => Except.error e
    | Except.ok env2 => Except.ok ([], env2)

/-- The two conditions on which the FIFO loop breaks at a transaction:
remaining gas below the intrinsic minimum, or (for a transaction not
skipped as replay-protected) a block-gas-limit-reached failure. -/
def fifoStop (oracle : ApplyOracle) (eip155 : Bool) (env : Env) (tx : Tx) : Prop :=
  env.gasPool < TxGas ∨
    ((tx.prot && !eip155) = false ∧
      (commitTransaction oracle env tx).2 = some TxErr.gasLimitReached)

/-- types.BlobTxType. -/
def BlobTxType : Nat := 3

/-- Lookup in a hash-keyed transaction map (Go map indexing). -/
def lookupTx (m : List (Hash × Tx)) (h : Hash) : Option Tx :=
  match m with
  | [] => none
  | p :: rest => if p.1 = h then some p.2 else lookupTx rest h

/-- The preconfirmation durability tracker locals.PreconfTxTracker: the
tracked-transaction map and the journal, the latter modelled as the
sequence of transactions inserted into it (the journal writer is non-nil
once the tracker has started). -/
structure PreconfTxTracker where
  all : List (Hash × Tx)
  journal : List Tx
deriving DecidableEq

/-- The loop of PreconfTxTracker.TrackAll: a blob-typed or already-tracked
transaction makes the whole call return at once (a Go return statement,
not a continue), abandoning the rest of the batch; otherwise the
transaction is added to the tracked map and inserted into the journal. -/
def trackLoop (t : PreconfTxTracker) (txs : List Tx) : PreconfTxTracker :=
  match txs with
  | [] => t
  | tx :: rest =>
    if tx.txType = BlobTxType then t
    else if (lookupTx t.all tx.hash).isSome then t
    else trackLoop ⟨t.all ++ [(tx.hash, tx)], t.journal ++ [tx]⟩ rest

/-- PreconfTxTracker.TrackAll from the locals package: with `clean` set
the tracked map is reset first (journal rotation), then the batch is
processed by the loop. -/
def TrackAll (t : PreconfTxTracker) (txs : List Tx) (clean : Bool) : PreconfTxTracker :=
  let t0 := if clean then { t with all := [] } else t
  trackLoop t0 txs

/-- A transaction the TrackAll loop accepts in tracker state `t`: not
blob-typed and not already tracked. -/
def trackable (t : PreconfTxTracker) (tx : Tx) : Prop :=
  ¬ tx.txType = BlobTxType ∧ lookupTx t.all tx.hash = none

/-- A sample execution oracle, used to exercise the FIFO loop on concrete
inputs: the transaction with hash 2 fails with block-gas-limit-reached;
every other transaction succeeds without touching the gas pool. -/
def gasOracle : ApplyOracle := fun env tx =>
  if tx.hash = 2 then
    ⟨env.state, env.gasPool, env.headerGasUsed, ApplyRes.fail TxErr.gasLimitReached⟩
  else
    ⟨env.state, env.gasPool, env.headerGasUsed, ApplyRes.ok ⟨tx.hash, 1, 0⟩⟩

end MantleGeth

namespace MantleGeth

/-- C1: SetStatus changes the stored status only when it currently equals
`statusBefore`, returns the status holding after the call, and once the
status has left Waiting for a terminal value, no later SetStatus call with
statusBefore = Waiting changes it: the first actor to move the request out
of Waiting is authoritative. -/
theorem c1_set_status_first_writer_wins :
    (∀ cur statusBefore status : PreconfStatus,
        (cur ≠ statusBefore → (SetStatus cur statusBefore status).1 = cur) ∧
        (cur = statusBefore → (SetStatus cur statusBefore status).1 = status) ∧
        (SetStatus cur statusBefore status).2 = (SetStatus cur statusBefore status).1) ∧
    (∀ (s : PreconfStatus) (calls : List (PreconfStatus × PreconfStatus)),
        s ≠ PreconfStatus.waiting →
        (∀ c ∈ calls, c.1 = PreconfStatus.waiting) →
        setStatusRun s calls = s) := by
  constructor
  · intro cur statusBefore status
    refine ⟨fun h => ?_, fun h => ?_, rfl⟩
    · simp [SetStatus, h]
    · simp [SetStatus, h]
  · intro s calls hs
    induction calls with
    | nil => intro _; rfl
    | cons c rest ih =>
        intro hcalls
        have hc : c.1 = PreconfStatus.waiting := hcalls c (List.mem_cons_self _ _)
        have hstep : (SetStatus s c.1 c.2).1 = s := by
          simp [SetStatus, hc, hs]
        have hrun : setStatusRun s (c :: rest) = setStatusRun (SetStatus s c.1 c.2).1 rest := rfl
        rw [hrun, hstep]
        exact ih fun d hd => hcalls d (List.mem_cons_of_mem _ hd)

/-- Witness for C1 at concrete inputs: a request already moved to Success
is not changed by later Waiting-guarded transitions. -/
theorem c1_set_status_first_writer_wins_witness :
    (SetStatus PreconfStatus.success PreconfStatus.waiting PreconfStatus.timeout).1
      = PreconfStatus.success ∧
    setStatusRun PreconfStatus.success
      [(PreconfStatus.waiting, PreconfStatus.timeout),
       (PreconfStatus.waiting, PreconfStatus.failed)] = PreconfStatus.success := by
  constructor
  · exact (c1_set_status_first_writer_wins.1 PreconfStatus.success PreconfStatus.waiting
      PreconfStatus.timeout).1 (by decide)
  · exact c1_set_status_first_writer_wins.2 PreconfStatus.success _ (by decide) (by decide)

/-- C2: with a sync status already accepted, UpdateOptimismSyncStatus
accepts a new status iff all five tracked counters are non-decreasing; an
accepted status is stored wholesale, a rejected one clears the ok flag and
leaves the stored status unchanged. -/
theorem c2_update_sync_status_monotone :
    ∀ (old newStatus : OptimismSyncStatus) (okFlag : Bool),
      ((UpdateOptimismSyncStatus ⟨some old, okFlag⟩ newStatus).1.optimismSyncStatusOk = true ↔
        (old.currentL1.number ≤ newStatus.currentL1.number ∧
         old.headL1.number ≤ newStatus.headL1.number ∧
         old.unsafeL2.number ≤ newStatus.unsafeL2.number ∧
         old.unsafeL2.l1Origin.number ≤ newStatus.unsafeL2.l1Origin.number ∧
         old.engineSyncTarget.number ≤ newStatus.engineSyncTarget.number)) ∧
      ((UpdateOptimismSyncStatus ⟨some old, okFlag⟩ newStatus).1.optimismSyncStatusOk = true →
        (UpdateOptimismSyncStatus ⟨some old, okFlag⟩ newStatus).1.optimismSyncStatus
          = some newStatus) ∧
      ((UpdateOptimismSyncStatus ⟨some old, okFlag⟩ newStatus).1.optimismSyncStatusOk = false →
        (UpdateOptimismSyncStatus ⟨some old, okFlag⟩ newStatus).1.optimismSyncStatus = some old) := by
  intro old newStatus okFlag
  by_cases hok : isSyncStatusOk old newStatus = true
  · have hstate : (UpdateOptimismSyncStatus ⟨some old, okFlag⟩ newStatus).1
        = ⟨some newStatus, true⟩ := by
      simp only [UpdateOptimismSyncStatus, hok, if_true]
      split <;> rfl
    have hcond := hok
    simp only [isSyncStatusOk, Bool.and_eq_true, decide_eq_true_eq] at hcond
    refine ⟨?_, fun _ => by rw [hstate], fun hfalse => ?_⟩
    · rw [hstate]
      constructor
      · intro _
        exact ⟨hcond.1.1.1.1, hcond.1.1.1.2, hcond.1.1.2, hcond.1.2, hcond.2⟩
      · intro _; rfl
    · rw [hstate] at hfalse ⊢
      exact absurd hfalse (by simp)
  · have hstate : (UpdateOptimismSyncStatus ⟨some old, okFlag⟩ newStatus).1
        = ⟨some old, false⟩ := by
      simp [UpdateOptimismSyncStatus, hok]
    have hcond := hok
    simp only [isSyncStatusOk, Bool.and_eq_true, decide_eq_true_eq, not_and_or] at hcond
    refine ⟨?_, fun htrue => ?_, fun _ => by rw [hstate]⟩
    · rw [hstate]
      constructor
      · intro h
        exact absurd h (by simp)
      · intro h
        exact absurd h (by tauto)
    · rw [hstate] at htrue
      exact absurd htrue (by simp)

/-- Witness for C2 at concrete inputs: a decrease in one counter is
rejected, keeping the stored status. -/
theorem c2_update_sync_status_monotone_witness :
    (UpdateOptimismSyncStatus
      ⟨some ⟨⟨10, 0⟩, ⟨15, 0⟩, ⟨20, 0, ⟨10⟩⟩, ⟨25, 0, ⟨10⟩⟩⟩, true⟩
      ⟨⟨9, 0⟩, ⟨16, 0⟩, ⟨21, 0, ⟨9⟩⟩, ⟨26, 0, ⟨9⟩⟩⟩).1.optimismSyncStatus
      = some ⟨⟨10, 0⟩, ⟨15, 0⟩, ⟨20, 0, ⟨10⟩⟩, ⟨25, 0, ⟨10⟩⟩⟩ := by
  refine (c2_update_sync_status_monotone
      ⟨⟨10, 0⟩, ⟨15, 0⟩, ⟨20, 0, ⟨10⟩⟩, ⟨25, 0, ⟨10⟩⟩⟩
      ⟨⟨9, 0⟩, ⟨16, 0⟩, ⟨21, 0, ⟨9⟩⟩, ⟨26, 0, ⟨9⟩⟩⟩ true).2.2 ?_
  decide

/-- C7 counterexample: in the earlier revision of IsPreconfTx the
all-transactions flag is consulted only after the nil check, so a request
with an absent sender is rejected even though the flag is set — the claim
that the flag admits unconditionally (including absent values) fails. -/
theorem c7_counterexample :
    (⟨[], [], true⟩ : TxPoolConfig).allPreconfs = true ∧
    IsPreconfTxEarly ⟨[], [], true⟩ none (some 0) = false := by
  decide

/-- C7 amended: the later revision of IsPreconfTx admits unconditionally
when the all-transactions flag is set; with the flag unset it admits
exactly a present sender in the sender allow-list paired with a present
recipient in the recipient allow-list; the earlier revision agrees with
the later one whenever both addresses are present, but rejects an absent
sender or recipient before the flag is consulted. -/
theorem c7_is_preconf_tx_policy :
    (∀ (c : TxPoolConfig) (f t : Option Address),
        c.allPreconfs = true → IsPreconfTx c f t = true) ∧
    (∀ (c : TxPoolConfig) (f t : Option Address),
        c.allPreconfs = false →
        (IsPreconfTx c f t = true ↔
          ∃ fa ta, f = some fa ∧ t = some ta ∧ fa ∈ c.fromPreconfs ∧ ta ∈ c.toPreconfs)) ∧
    (∀ (c : TxPoolConfig) (fa ta : Address),
        IsPreconfTxEarly c (some fa) (some ta) = IsPreconfTx c (some fa) (some ta)) ∧
    (∀ (c : TxPoolConfig) (f t : Option Address),
        f = none ∨ t = none → IsPreconfTxEarly c f t = false) := by
  refine ⟨?_, ?_, ?_, ?_⟩
  · intro c f t hall
    simp [IsPreconfTx, hall]
  · intro c f t hall
    cases f with
    | none => simp [IsPreconfTx, hall]
    | some fa =>
        cases t with
        | none => simp [IsPreconfTx, hall]
        | some ta =>
            simp only [IsPreconfTx, hall, Bool.false_eq_true, if_false,
              fromToMatch_eq_true_iff]
            constructor
            · rintro ⟨hf, ht⟩
              exact ⟨fa, ta, rfl, rfl, hf, ht⟩
            · rintro ⟨fa', ta', hfa, hta, hf, ht⟩
              cases hfa
              cases hta
              exact ⟨hf, ht⟩
  · intro c fa ta
    by_cases hall : c.allPreconfs = true
    · simp [IsPreconfTxEarly, IsPreconfTx, hall]
    · simp [IsPreconfTxEarly, IsPreconfTx, hall]
  · intro c f t h
    rcases h with h | h
    · cases h; cases t <;> rfl
    · cases h; cases f <;> rfl

/-- Witness for C7 at concrete inputs. -/
theorem c7_is_preconf_tx_policy_witness :
    IsPreconfTx ⟨[], [], true⟩ none none = true ∧
    IsPreconfTxEarly ⟨[], [], true⟩ none (some 0) = false ∧
    IsPreconfTx ⟨[5], [7], false⟩ (some 5) (some 7) = true := by
  refine ⟨?_, ?_, ?_⟩
  · exact c7_is_preconf_tx_policy.1 ⟨[], [], true⟩ none none rfl
  · exact c7_is_preconf_tx_policy.2.2.2 ⟨[], [], true⟩ none (some 0) (Or.inl rfl)
  · exact (c7_is_preconf_tx_policy.2.1 ⟨[5], [7], false⟩ (some 5) (some 7) rfl).2
      ⟨5, 7, rfl, rfl, by decide, by decide⟩

/-- C8: after Forward(addr, nonce) the queue is exactly the original queue
with the entries of addr of nonce below `nonce` removed; hence no
remaining entry of addr has a nonce strictly below `nonce`, and the
entries of every other sender are untouched and keep their relative FIFO
positions. -/
theorem c8_forward_pruning :
    ∀ (s : FIFOTxSet) (addr : Address) (nonce : Nat),
      ((Forward s addr nonce).txQueue
        = s.txQueue.filter
            (fun entry => !(decide (entry.sender = addr) && decide (entry.tx.nonce < nonce)))) ∧
      (∀ entry ∈ (Forward s addr nonce).txQueue,
          entry.sender = addr → nonce ≤ entry.tx.nonce) ∧
      ((Forward s addr nonce).txQueue.filter (fun entry => !decide (entry.sender = addr))
        = s.txQueue.filter (fun entry => !decide (entry.sender = addr))) := by
  intro s addr nonce
  have hqueue := forward_foldl_queue addr nonce s.txQueue s.txMap []
  have hq : (Forward s addr nonce).txQueue
      = s.txQueue.filter
          (fun entry => !(decide (entry.sender = addr) && decide (entry.tx.nonce < nonce))) := by
    simpa [Forward] using hqueue
  refine ⟨hq, ?_, ?_⟩
  · intro entry hmem hsender
    rw [hq] at hmem
    have hpred := List.of_mem_filter hmem
    simp only [hsender, decide_True, Bool.true_and, Bool.not_eq_true', decide_eq_false_iff_not,
      not_lt] at hpred
    exact hpred
  · rw [hq, List.filter_filter]
    apply List.filter_congr
    intro x _
    by_cases hx : x.sender = addr <;> simp [hx]

lemma applyTx_fail_eq (oracle : ApplyOracle) (env : Env) (tx : Tx) (e : TxErr)
    (h : (applyTx oracle env tx).2 = ApplyRes.fail e) :
    applyTx oracle env tx = (env, ApplyRes.fail e) := by
  cases ho : (oracle env tx).result with
  | ok receipt =>
      exfalso
      simp [applyTx, ho] at h
  | fail e0 =>
      have he : e0 = e := by
        simpa [applyTx, ho] using h
      subst he
      simp [applyTx, ho]

/-- C9: when applying a transaction fails, applyTx leaves the environment
unchanged — the execution state is rolled back to the snapshot, the gas
pool is restored, and the applied-transaction list, receipt list and
transaction count are untouched; on success the transaction and its
receipt are appended and the count increases by one. -/
theorem c9_apply_tx_rollback_frame :
    ∀ (oracle : ApplyOracle) (env : Env) (tx : Tx),
      (∀ e, (applyTx oracle env tx).2 = ApplyRes.fail e →
          (applyTx oracle env tx).1.state = env.state ∧
          (applyTx oracle env tx).1.gasPool = env.gasPool ∧
          (applyTx oracle env tx).1.txs = env.txs ∧
          (applyTx oracle env tx).1.receipts = env.receipts ∧
          (applyTx oracle env tx).1.tcount = env.tcount) ∧
      (∀ receipt, (applyTx oracle env tx).2 = ApplyRes.ok receipt →
          (applyTx oracle env tx).1.txs = env.txs ++ [tx] ∧
          (applyTx oracle env tx).1.receipts = env.receipts ++ [receipt] ∧
          (applyTx oracle env tx).1.tcount = env.tcount + 1) := by
  intro oracle env tx
  constructor
  · intro e he
    rw [applyTx_fail_eq oracle env tx e he]
    exact ⟨rfl, rfl, rfl, rfl, rfl⟩
  · intro receipt hr
    cases ho : (oracle env tx).result with
    | fail e0 =>
        exfalso
        simp [applyTx, ho] at hr
    | ok receipt0 =>
        have he : receipt0 = receipt := by
          simpa [applyTx, ho] using hr
        subst he
        simp [applyTx, ho]

/-- Witness for C9 with a concrete failing oracle: the state mutated by
the oracle is rolled back. -/
theorem c9_apply_tx_rollback_frame_witness :
    (applyTx (fun env _ => ⟨env.state + 7, 0, 99, ApplyRes.fail TxErr.other⟩)
        ⟨1, 2, 3, 4, 5, [], [], 0⟩ ⟨9, 0, 0, 0, false⟩).1.state = 5 := by
  exact ((c9_apply_tx_rollback_frame
      (fun env _ => ⟨env.state + 7, 0, 99, ApplyRes.fail TxErr.other⟩)
      ⟨1, 2, 3, 4, 5, [], [], 0⟩ ⟨9, 0, 0, 0, false⟩).1 TxErr.other rfl).1

/-- C4: if applying the transaction fails with block-gas-limit-reached,
the header number is advanced by exactly one, the gas pool is reset to the
header gas limit, and the application is retried exactly once — the call
returns whatever that single retry returns; any other error is returned
directly, and a success is returned as is. -/
theorem c4_apply_tx_with_reset_env :
    ∀ (oracle : ApplyOracle) (env : Env) (tx : Tx),
      ((applyTx oracle env tx).2 = ApplyRes.fail TxErr.gasLimitReached →
        applyTxWithResetEnv oracle env tx
          = applyTx oracle
              { env with headerNumber := env.headerNumber + 1,
                         gasPool := env.headerGasLimit } tx) ∧
      (∀ e, (applyTx oracle env tx).2 = ApplyRes.fail e → e ≠ TxErr.gasLimitReached →
        applyTxWithResetEnv oracle env tx = (env, ApplyRes.fail e)) ∧
      (∀ receipt, (applyTx oracle env tx).2 = ApplyRes.ok receipt →
        applyTxWithResetEnv oracle env tx = applyTx oracle env tx) := by
  intro oracle env tx
  refine ⟨?_, ?_, ?_⟩
  · intro h
    have heq := applyTx_fail_eq oracle env tx TxErr.gasLimitReached h
    simp only [applyTxWithResetEnv, heq]
  · intro e h hne
    have heq := applyTx_fail_eq oracle env tx e h
    cases e with
    | gasLimitReached => exact absurd rfl hne
    | nonceTooLow => simp only [applyTxWithResetEnv, heq]
    | other => simp only [applyTxWithResetEnv, heq]
  · intro receipt h
    rcases hA : applyTx oracle env tx with ⟨env1, r⟩
    rw [hA] at h
    cases r with
    | fail e0 => simp at h
    | ok receipt0 => simp only [applyTxWithResetEnv, hA]

/-- Witness for C4 with a concrete always-gas-limited oracle: the retry
happens on the environment with header number advanced and gas pool reset. -/
theorem c4_apply_tx_with_reset_env_witness :
    applyTxWithResetEnv (fun _ _ => ⟨0, 0, 0, ApplyRes.fail TxErr.gasLimitReached⟩)
        ⟨1, 2, 3, 4, 5, [], [], 0⟩ ⟨9, 0, 0, 0, false⟩
      = applyTx (fun _ _ => ⟨0, 0, 0, ApplyRes.fail TxErr.gasLimitReached⟩)
          ⟨2, 2, 3, 2, 5, [], [], 0⟩ ⟨9, 0, 0, 0, false⟩ := by
  exact (c4_apply_tx_with_reset_env
      (fun _ _ => ⟨0, 0, 0, ApplyRes.fail TxErr.gasLimitReached⟩)
      ⟨1, 2, 3, 4, 5, [], [], 0⟩ ⟨9, 0, 0, 0, false⟩).1 rfl

/-- C5 counterexample: with all earlier gates passing, a state whose
current-L1 and head-L1 numbers are equal (gap 0, within tolerance) still
yields the current-L1/head-L1-distance gate error, because the code
actually compares head-L1 against the unsafe-L2 L1-origin number. -/
theorem c5_counterexample :
    precheck ⟨some ⟨5, 0, 0, 0, 0, [], [], 0⟩, 0,
        some ⟨⟨100, 0⟩, ⟨100, 0⟩, ⟨5, 0, ⟨50⟩⟩, ⟨5, 0, ⟨50⟩⟩⟩, true, ⟨6, 6⟩⟩ 0
      = some PrecheckErr.currentL1NumberAndHeadL1NumberDistanceTooLarge ∧
    ¬ wsub64 100 100 > MinerConfig.ethToleranceBlock ⟨6, 6⟩ := by
  decide

/-- C5 amended: assuming every earlier gate passes, precheck returns the
gate error named after the current-L1/head-L1 distance exactly when the
gap between the head-L1 number and the unsafe-L2 L1-origin number (uint64
subtraction) exceeds the configured block tolerance. -/
theorem c5_head_l1_origin_gap_gate :
    ∀ (env : Env) (updatedAt : Int) (status : OptimismSyncStatus) (cfg : MinerConfig) (now : Int),
      ¬ now - updatedAt > cfg.mantleToleranceDuration →
      ¬ now - toI64 status.currentL1.time > cfg.ethToleranceDuration →
      ¬ now - toI64 status.headL1.time > cfg.ethToleranceDuration →
      (precheck ⟨some env, updatedAt, some status, true, cfg⟩ now
          = some PrecheckErr.currentL1NumberAndHeadL1NumberDistanceTooLarge
        ↔ wsub64 status.headL1.number status.unsafeL2.l1Origin.number
            > cfg.ethToleranceBlock) := by
  intro env updatedAt status cfg now h1 h2 h3
  simp only [precheck, Bool.not_true, Bool.false_eq_true, if_false, if_neg h1, if_neg h2,
    if_neg h3]
  constructor
  · intro hsome
    by_contra hgap
    rw [if_neg hgap] at hsome
    split at hsome <;> simp_all
  · intro hgap
    rw [if_pos hgap]

/-- Witness for C5 at a concrete state with a large head-L1/L1-origin
gap. -/
theorem c5_head_l1_origin_gap_gate_witness :
    precheck ⟨some ⟨5, 0, 0, 0, 0, [], [], 0⟩, 0,
        some ⟨⟨100, 0⟩, ⟨100, 0⟩, ⟨7, 0, ⟨50⟩⟩, ⟨7, 0, ⟨50⟩⟩⟩, true, ⟨6, 6⟩⟩ 0
      = some PrecheckErr.currentL1NumberAndHeadL1NumberDistanceTooLarge := by
  exact (c5_head_l1_origin_gap_gate ⟨5, 0, 0, 0, 0, [], [], 0⟩ 0
      ⟨⟨100, 0⟩, ⟨100, 0⟩, ⟨7, 0, ⟨50⟩⟩, ⟨7, 0, ⟨50⟩⟩⟩ ⟨6, 6⟩ 0
      (by decide) (by decide) (by decide)).mpr (by decide)

/-- C6 counterexample: with the ok flag false but the environment absent,
precheck returns the env-nil error, not the sync-status-not-OK error — so
the claim does not hold for every value of the other fields. -/
theorem c6_counterexample :
    precheck ⟨none, 0, none, false, ⟨6, 6⟩⟩ 0 = some PrecheckErr.envNil ∧
    PrecheckErr.envNil ≠ PrecheckErr.optimismSyncNotOk := by
  decide

/-- C6 amended: whenever the ok flag is false, the environment is present
and a sync status has been received, precheck returns the
sync-status-not-OK gate error regardless of every other field value. -/
theorem c6_gate_closed_on_bad_status :
    ∀ (env : Env) (updatedAt : Int) (status : OptimismSyncStatus) (cfg : MinerConfig) (now : Int),
      precheck ⟨some env, updatedAt, some status, false, cfg⟩ now
        = some PrecheckErr.optimismSyncNotOk := by
  intro env updatedAt status cfg now
  simp [precheck]

lemma trackLoop_cons_good (t : PreconfTxTracker) (tx : Tx) (l : List Tx)
    (h : trackable t tx) :
    trackLoop t (tx :: l) = trackLoop ⟨t.all ++ [(tx.hash, tx)], t.journal ++ [tx]⟩ l := by
  obtain ⟨h1, h2⟩ := h
  simp [trackLoop, h1, h2]

lemma trackLoop_cons_bad (t : PreconfTxTracker) (tx : Tx) (l : List Tx)
    (h : ¬ trackable t tx) :
    trackLoop t (tx :: l) = t := by
  by_cases h1 : tx.txType = BlobTxType
  · simp [trackLoop, h1]
  · by_cases h2 : (lookupTx t.all tx.hash).isSome = true
    · simp [trackLoop, h1, h2]
    · exact absurd ⟨h1, Option.not_isSome_iff_eq_none.mp h2⟩ h

lemma trackLoop_prefix_run :
    ∀ (txs : List Tx) (i : Nat) (t : PreconfTxTracker) (hle : i ≤ txs.length),
      (∀ j (hj : j < i),
        trackable (trackLoop t (txs.take j)) (txs.get ⟨j, lt_of_lt_of_le hj hle⟩)) →
      (∀ hi : i < txs.length, ¬ trackable (trackLoop t (txs.take i)) (txs.get ⟨i, hi⟩)) →
      trackLoop t txs = trackLoop t (txs.take i) ∧
      (trackLoop t txs).journal = t.journal ++ txs.take i ∧
      (trackLoop t txs).all = t.all ++ (txs.take i).map (fun tx => (tx.hash, tx)) := by
  intro txs
  induction txs with
  | nil =>
      intro i t hle hgood hstop
      have hz : i = 0 := Nat.le_zero.mp hle
      subst hz
      simp [trackLoop]
  | cons tx rest ih =>
      intro i t hle hgood hstop
      cases i with
      | zero =>
          have hbad : ¬ trackable t tx := by
            have h := hstop (by simp)
            simpa [trackLoop] using h
          rw [trackLoop_cons_bad t tx rest hbad]
          simp [trackLoop]
      | succ j =>
          have hg0 : trackable t tx := by
            have h := hgood 0 (Nat.succ_pos j)
            simpa [trackLoop] using h
          have hstep : ∀ l, trackLoop t (tx :: l)
              = trackLoop ⟨t.all ++ [(tx.hash, tx)], t.journal ++ [tx]⟩ l :=
            fun l => trackLoop_cons_good t tx l hg0
          have hle1 : j ≤ rest.length := by
            simpa using Nat.succ_le_succ_iff.mp (by simpa using hle)
          have hgood1 : ∀ jj (hj : jj < j),
              trackable (trackLoop ⟨t.all ++ [(tx.hash, tx)], t.journal ++ [tx]⟩ (rest.take jj))
                (rest.get ⟨jj, lt_of_lt_of_le hj hle1⟩) := by
            intro jj hj
            have h := hgood (jj + 1) (Nat.succ_lt_succ hj)
            rw [List.take_succ_cons, hstep] at h
            simpa using h
          have hstop1 : ∀ hi : j < rest.length,
              ¬ trackable (trackLoop ⟨t.all ++ [(tx.hash, tx)], t.journal ++ [tx]⟩ (rest.take j))
                (rest.get ⟨j, hi⟩) := by
            intro hi
            have h := hstop (by simpa using Nat.succ_lt_succ hi)
            rw [List.take_succ_cons, hstep] at h
            simpa using h
          obtain ⟨e1, e2, e3⟩ := ih j _ hle1 hgood1 hstop1
          refine ⟨?_, ?_, ?_⟩
          · rw [hstep rest, e1, List.take_succ_cons, hstep]
          · rw [hstep rest, e2]
            simp [List.take_succ_cons]
          · rw [hstep rest, e3]
            simp [List.take_succ_cons]

/-- C10: if `i` is the position of the first transaction of the batch that
is blob-typed or already tracked (every earlier one being trackable in the
state it is reached in), then TrackAll processes exactly the batch head up
to (excluding) `i`: those transactions are all tracked and journaled, and
the transaction at `i` together with everything after it is neither added
to the tracked map nor written to the journal. -/
theorem c10_track_all_stops_at_first_bad :
    ∀ (t : PreconfTxTracker) (txs : List Tx) (clean : Bool) (i : Nat) (hle : i ≤ txs.length),
      (∀ j (hj : j < i),
        trackable (trackLoop (if clean then { t with all := [] } else t) (txs.take j))
          (txs.get ⟨j, lt_of_lt_of_le hj hle⟩)) →
      (∀ hi : i < txs.length,
        ¬ trackable (trackLoop (if clean then { t with all := [] } else t) (txs.take i))
          (txs.get ⟨i, hi⟩)) →
      TrackAll t txs clean
        = trackLoop (if clean then { t with all := [] } else t) (txs.take i) ∧
      (TrackAll t txs clean).journal
        = (if clean then { t with all := [] } else t).journal ++ txs.take i ∧
      (TrackAll t txs clean).all
        = (if clean then { t with all := [] } else t).all
            ++ (txs.take i).map (fun tx => (tx.hash, tx)) := by
  intro t txs clean i hle hgood hstop
  exact trackLoop_prefix_run txs i (if clean then { t with all := [] } else t) hle hgood hstop

/-- Witness for C10: a batch whose second transaction is blob-typed is
abandoned from that transaction on; only the first is journaled. -/
theorem c10_track_all_stops_at_first_bad_witness :
    (TrackAll ⟨[], []⟩
        [⟨1, 0, 0, 0, false⟩, ⟨2, 0, 0, 3, false⟩, ⟨3, 0, 0, 0, false⟩] false).journal
      = [⟨1, 0, 0, 0, false⟩] := by
  have h := c10_track_all_stops_at_first_bad ⟨[], []⟩
      [⟨1, 0, 0, 0, false⟩, ⟨2, 0, 0, 3, false⟩, ⟨3, 0, 0, 0, false⟩] false 1
      (by decide)
      (by
        intro j hj
        have hj0 : j = 0 := Nat.lt_one_iff.mp hj
        subst hj0
        exact show trackable ⟨[], []⟩ ⟨1, 0, 0, 0, false⟩ from ⟨by decide, rfl⟩)
      (by
        intro hi
        rintro ⟨h1, -⟩
        exact h1 rfl)
  simpa using h.2.1

/-- Witness for C8 at a concrete registry. -/
theorem c8_forward_pruning_witness :
    2 ≤ (Tx.mk 10 2 0 0 false).nonce ∧
    (Forward ⟨[], [⟨⟨10, 2, 0, 0, false⟩, 1⟩]⟩ 1 2).txQueue
      = [⟨⟨10, 2, 0, 0, false⟩, 1⟩] := by
  constructor
  · exact (c8_forward_pruning ⟨[], [⟨⟨10, 2, 0, 0, false⟩, 1⟩]⟩ 1 2).2.1
      ⟨⟨10, 2, 0, 0, false⟩, 1⟩ (by decide) rfl
  · exact (c8_forward_pruning ⟨[], [⟨⟨10, 2, 0, 0, false⟩, 1⟩]⟩ 1 2).1

lemma commitTransaction_fail_eq (oracle : ApplyOracle) (env : Env) (tx : Tx) (e : TxErr)
    (h : (commitTransaction oracle env tx).2 = some e) :
    commitTransaction oracle env tx = (env, some e) := by
  cases ho : (oracle env tx).result with
  | ok receipt =>
      exfalso
      simp [commitTransaction, applyTransaction, ho] at h
  | fail e0 =>
      have he : e0 = e := by
        simpa [commitTransaction, applyTransaction, ho] using h
      subst he
      simp [commitTransaction, applyTransaction, ho]

lemma fifoLoop_cons_gas (oracle : ApplyOracle) (b : Bool) (env : Env) (tx : Tx) (l : List Tx)
    (h : env.gasPool < TxGas) :
    fifoLoop oracle b env (tx :: l) = (some (tx :: l), env) := by
  simp [fifoLoop, h]

lemma fifoLoop_cons_skip (oracle : ApplyOracle) (b : Bool) (env : Env) (tx : Tx) (l : List Tx)
    (h : ¬ env.gasPool < TxGas) (hs : (tx.prot && !b) = true) :
    fifoLoop oracle b env (tx :: l) = fifoLoop oracle b env l := by
  simp [fifoLoop, h, hs]

lemma fifoLoop_cons_break (oracle : ApplyOracle) (b : Bool) (env : Env) (tx : Tx) (l : List Tx)
    (h : ¬ env.gasPool < TxGas) (hs : (tx.prot && !b) = false)
    (hc : (commitTransaction oracle env tx).2 = some TxErr.gasLimitReached) :
    fifoLoop oracle b env (tx :: l) = (some (tx :: l), env) := by
  have heq := commitTransaction_fail_eq oracle env tx TxErr.gasLimitReached hc
  simp [fifoLoop, h, hs, heq]

lemma fifoLoop_cons_cont (oracle : ApplyOracle) (b : Bool) (env : Env) (tx : Tx) (l : List Tx)
    (h : ¬ env.gasPool < TxGas) (hs : (tx.prot && !b) = false)
    (hc : (commitTransaction oracle env tx).2 ≠ some TxErr.gasLimitReached) :
    fifoLoop oracle b env (tx :: l)
      = fifoLoop oracle b (commitTransaction oracle env tx).1 l := by
  rcases hcc : commitTransaction oracle env tx with ⟨env1, r⟩
  rw [hcc] at hc
  cases r with
  | none => simp [fifoLoop, h, hs, hcc]
  | some e =>
      cases e with
      | gasLimitReached =>
          exfalso
          exact hc rfl
      | nonceTooLow => simp [fifoLoop, h, hs, hcc]
      | other => simp [fifoLoop, h, hs, hcc]

lemma fifoLoop_break_at (oracle : ApplyOracle) (b : Bool) :
    ∀ (txs : List Tx) (i : Nat) (env : Env) (hi : i < txs.length),
      (fifoLoop oracle b env (txs.take i)).1 = none →
      fifoStop oracle b (fifoLoop oracle b env (txs.take i)).2 (txs.get ⟨i, hi⟩) →
      fifoLoop oracle b env txs = (some (txs.drop i), (fifoLoop oracle b env (txs.take i)).2) := by
  intro txs
  induction txs with
  | nil =>
      intro i env hi
      exact absurd hi (by simp)
  | cons tx rest ih =>
      intro i env hi hpre hstop
      cases i with
      | zero =>
          have hstop0 : fifoStop oracle b env tx := by
            simpa [fifoLoop] using hstop
          have hgoal : fifoLoop oracle b env (tx :: rest) = (some (tx :: rest), env) := by
            rcases hstop0 with hgas | ⟨hs, hc⟩
            · exact fifoLoop_cons_gas oracle b env tx rest hgas
            · by_cases hgas : env.gasPool < TxGas
              · exact fifoLoop_cons_gas oracle b env tx rest hgas
              · exact fifoLoop_cons_break oracle b env tx rest hgas hs hc
          simpa [fifoLoop] using hgoal
      | succ j =>
          have hi1 : j < rest.length := by
            simpa using Nat.succ_lt_succ_iff.mp (by simpa using hi)
          rw [List.take_succ_cons] at hpre hstop
          rw [List.take_succ_cons, List.drop_succ_cons]
          by_cases hgas : env.gasPool < TxGas
          · rw [fifoLoop_cons_gas oracle b env tx (rest.take j) hgas] at hpre
            exact absurd hpre (by simp)
          · by_cases hs : (tx.prot && !b) = true
            · rw [fifoLoop_cons_skip oracle b env tx (rest.take j) hgas hs] at hpre hstop
              rw [fifoLoop_cons_skip oracle b env tx rest hgas hs,
                fifoLoop_cons_skip oracle b env tx (rest.take j) hgas hs]
              exact ih j env hi1 hpre (by simpa using hstop)
            · have hs1 : (tx.prot && !b) = false := by
                simpa using hs
              by_cases hc : (commitTransaction oracle env tx).2 = some TxErr.gasLimitReached
              · rw [fifoLoop_cons_break oracle b env tx (rest.take j) hgas hs1 hc] at hpre
                exact absurd hpre (by simp)
              · rw [fifoLoop_cons_cont oracle b env tx (rest.take j) hgas hs1 hc] at hpre hstop
                rw [fifoLoop_cons_cont oracle b env tx rest hgas hs1 hc,
                  fifoLoop_cons_cont oracle b env tx (rest.take j) hgas hs1 hc]
                exact ih j _ hi1 hpre (by simpa using hstop)

/-- C3: with no interrupt, the FIFO commit walks the drained
preconfirmation transactions strictly in order: if the run over the length
`i` head breaks at nothing and the transaction at position `i` triggers a
gas stop (gas pool below the intrinsic minimum, or a
block-gas-limit-reached failure), the returned unsealed list is exactly
the suffix of the input starting at that transaction; if no break occurs
the unsealed list is empty; and whenever the unsealed list is non-empty,
fillTransactions returns it without running the ordinary
(non-preconfirmation) filling stage at all. -/
theorem c3_fifo_block_fill :
    ∀ (oracle : ApplyOracle) (eip155 : Bool) (env : Env) (txs : List Tx),
      ((fifoLoop oracle eip155 env txs).1 = none →
        commitFIFOTransactions oracle eip155 false env txs
          = Except.ok ([], (fifoLoop oracle eip155 env txs).2)) ∧
      (∀ i (hi : i < txs.length),
        (fifoLoop oracle eip155 env (txs.take i)).1 = none →
        fifoStop oracle eip155 (fifoLoop oracle eip155 env (txs.take i)).2 (txs.get ⟨i, hi⟩) →
          commitFIFOTransactions oracle eip155 false env txs
            = Except.ok (txs.drop i, (fifoLoop oracle eip155 env (txs.take i)).2)) ∧
      (∀ (unsealed : List Tx) (env1 : Env) (f g : Env → Except BuildErr Env),
        commitFIFOTransactions oracle eip155 false env txs = Except.ok (unsealed, env1) →
        unsealed ≠ [] →
          fillTransactions oracle eip155 false f env txs = Except.ok (unsealed, env1) ∧
          fillTransactions oracle eip155 false f env txs
            = fillTransactions oracle eip155 false g env txs) := by
  intro oracle eip155 env txs
  refine ⟨?_, ?_, ?_⟩
  · intro hnone
    simp [commitFIFOTransactions, hnone]
  · intro i hi hpre hstop
    have hbreak := fifoLoop_break_at oracle eip155 txs i env hi hpre hstop
    simp [commitFIFOTransactions, hbreak]
  · intro unsealed env1 f g hok hne
    have htxs : txs ≠ [] := by
      rintro rfl
      simp [commitFIFOTransactions, fifoLoop] at hok
      exact hne hok.1
    have hlen : 0 < txs.length := List.length_pos.mpr htxs
    have hulen : 0 < unsealed.length := List.length_pos.mpr hne
    have hfill : ∀ h : Env → Except BuildErr Env,
        fillTransactions oracle eip155 false h env txs = Except.ok (unsealed, env1) := by
      intro hfun
      simp only [fillTransactions, if_pos hlen, hok, if_pos hulen]
    exact ⟨hfill f, (hfill f).trans (hfill g).symm⟩

/-- Witness for C3: a concrete three-transaction batch whose second
transaction hits the gas limit leaves exactly the last two unsealed. -/
theorem c3_fifo_block_fill_witness :
    commitFIFOTransactions gasOracle false false ⟨1, 30000000, 0, 30000000, 0, [], [], 0⟩
        [⟨1, 0, 0, 0, false⟩, ⟨2, 0, 0, 0, false⟩, ⟨3, 0, 0, 0, false⟩]
      = Except.ok
          (([⟨1, 0, 0, 0, false⟩, ⟨2, 0, 0, 0, false⟩, ⟨3, 0, 0, 0, false⟩] : List Tx).drop 1,
           (fifoLoop gasOracle false ⟨1, 30000000, 0, 30000000, 0, [], [], 0⟩
             (([⟨1, 0, 0, 0, false⟩, ⟨2, 0, 0, 0, false⟩, ⟨3, 0, 0, 0, false⟩] : List Tx).take 1)).2) := by
  exact (c3_fifo_block_fill gasOracle false ⟨1, 30000000, 0, 30000000, 0, [], [], 0⟩
      [⟨1, 0, 0, 0, false⟩, ⟨2, 0, 0, 0, false⟩, ⟨3, 0, 0, 0, false⟩]).2.1 1 (by decide)
      rfl (Or.inr ⟨rfl, rfl⟩)

end MantleGeth
